import Mathlib

/-!
Verification of the Europass CV validation engine (`scripts/cv_validator.py`,
`scripts/validation_result.py`).

The Python data values (parsed YAML documents and the JSON-Schema itself,
which the code walks as a plain dict) are embedded as the inductive `Json`.
Pure functions of the source are translated one-to-one; the external
collaborators (the `jsonschema` Draft-7 validator, the `fuzzywuzzy` string
similarity library, file loading) are modelled from the specification, each
marked `Modelled from the spec:` in its doc comment.
-/

set_option maxHeartbeats 1000000
set_option linter.unusedTactic false

namespace CVGen

/-- A YAML/JSON value as the Python code sees it: `None`, `bool`, `int`,
`str`, `list`, `dict` (insertion-ordered key/value pairs with unique keys),
plus the native `datetime.date` / `datetime.datetime` scalars that PyYAML
produces for date-shaped input. -/
inductive Json where
  | null : Json
  | bool (b : Bool) : Json
  | int (n : Int) : Json
  | str (s : String) : Json
  | date (y m d : Nat) : Json
  | datetime (y m d hh mi ss : Nat) : Json
  | arr (elems : List Json) : Json
  | obj (kvs : List (String × Json)) : Json

/-- First-match key lookup in a dict's key/value list (Python `d[k]` /
`k in d`; dict keys are unique so first-match is the match).  The result
carries its size bound so that recursive traversals through looked-up
sub-schemas are visibly terminating. -/
def lookupJ : (kvs : List (String × Json)) → String → Option { v : Json // sizeOf v < sizeOf kvs }
  | [], _ => none
  | (k, v) :: rest, key =>
    if k == key then
      some ⟨v, by simp; omega⟩
    else
      match lookupJ rest key with
      | none => none
      | some ⟨w, h⟩ => some ⟨w, by simp; omega⟩

/-- Plain lookup, forgetting the size bound. -/
def lookupVal (kvs : List (String × Json)) (key : String) : Option Json :=
  match lookupJ kvs key with
  | none => none
  | some ⟨v, _⟩ => some v

/-- Python `isinstance(v, dict)`. -/
def Json.isDict : Json → Bool
  | .obj _ => true
  | _ => false

/-- Python `f"{path}.{name}" if path else name` — the dotted-path join used
for unknown-field paths and known-field names. -/
def qualify (path name : String) : String :=
  if path = "" then name else path ++ "." ++ name

/-- Python `".".join(parts)`. -/
def joinDot : List String → String
  | [] => ""
  | [x] => x
  | x :: xs => x ++ "." ++ joinDot xs

/-- Python `s.split(c)` for a single-character separator, over the
character list (auxiliary: `acc` is the current piece, reversed). -/
def splitCharAux (c : Char) : List Char → List Char → List (List Char)
  | [], acc => [acc.reverse]
  | x :: xs, acc =>
    if x = c then acc.reverse :: splitCharAux c xs [] else splitCharAux c xs (x :: acc)

/-- Python `s.split(c)` for a single-character separator. -/
def splitChar (c : Char) (s : String) : List String :=
  (splitCharAux c s.data []).map String.mk

/-- Python `parts[-1]` on a nonempty list (`split` always returns at least
one piece), with `""` for the impossible empty case. -/
def lastSeg : List String → String
  | [] => ""
  | [x] => x
  | _ :: x :: xs => lastSeg (x :: xs)

/-- The decimal digit character for `n % 10`. -/
def digitChar (n : Nat) : Char :=
  Char.ofNat (48 + n % 10)

/-- Two-digit zero-padded decimal (for `%m`, `%d`). -/
def pad2 (n : Nat) : String :=
  String.mk [digitChar (n / 10), digitChar n]

/-- Four-digit zero-padded decimal (for `%Y` on in-range years). -/
def pad4 (n : Nat) : String :=
  String.mk [digitChar (n / 1000), digitChar (n / 100), digitChar (n / 10), digitChar n]

/-- Python `obj.strftime('%Y-%m-%d')`: the canonical date string. -/
def dateStr (y m d : Nat) : String :=
  pad4 y ++ "-" ++ pad2 m ++ "-" ++ pad2 d

/-- Python `type(v).__name__`, as used in the type-mismatch message. -/
def pyTypeName : Json → String
  | .null => "NoneType"
  | .bool _ => "bool"
  | .int _ => "int"
  | .str _ => "str"
  | .date _ _ _ => "date"
  | .datetime _ _ _ _ _ _ => "datetime"
  | .arr _ => "list"
  | .obj _ => "dict"

/-- Python `str(v)` for the scalar values that can appear in an `enum`
list (used by the enum error message `f"'{v}'"`). -/
def pyStr : Json → String
  | .null => "None"
  | .bool b => if b then "True" else "False"
  | .int n => toString n
  | .str s => s
  | .date y m d => dateStr y m d
  | .datetime y m d _ _ _ => dateStr y m d
  | .arr _ => "[...]"
  | .obj _ => "\x7b...\x7d"

mutual
/-- `CVValidator._normalize_data_for_validation.normalize_recursive`:
rebuild dicts and lists recursively, turn `date`/`datetime` scalars into
their `'%Y-%m-%d'` string, leave every other scalar unchanged. -/
def normalize : Json → Json
  | .null => .null
  | .bool b => .bool b
  | .int n => .int n
  | .str s => .str s
  | .date y m d => .str (dateStr y m d)
  | .datetime y m d _ _ _ => .str (dateStr y m d)
  | .arr elems => .arr (normalizeArr elems)
  | .obj kvs => .obj (normalizeObj kvs)

/-- List comprehension arm of `normalize_recursive`. -/
def normalizeArr : List Json → List Json
  | [] => []
  | x :: xs => normalize x :: normalizeArr xs

/-- Dict comprehension arm of `normalize_recursive`. -/
def normalizeObj : List (String × Json) → List (String × Json)
  | [] => []
  | (k, v) :: rest => (k, normalize v) :: normalizeObj rest
end

/-- Python `k in kvs` for a dict's key list. -/
def keyMem (kvs : List (String × Json)) (k : String) : Bool :=
  kvs.any (fun p => p.1 == k)

/-- Python `'properties' in v` style check on an arbitrary value: true
exactly when `v` is a dict containing the key.  (When `v` is a string,
Python would do a substring test instead — such malformed sub-schemas
never carry the key `properties`/`items` as a substring in any schema this
validator is used with, so the check is false there as well.) -/
def hasKey (v : Json) (k : String) : Bool :=
  match v with
  | .obj kvs => keyMem kvs k
  | _ => false

mutual
/-- `CVValidator._find_unknown_fields`: recursively collect the dotted /
bracketed paths of keys present in the data but not declared by the
schema's `properties` at the same nesting level.  The Python set
difference `actual_fields - allowed_fields` is iterated in the
implementation-defined set order; it is modelled here in data insertion
order (the same multiset of paths).  A `properties` value that is not a
dict would crash the Python duck-typed walk and cannot occur in a
well-formed schema; it is modelled as yielding no unknown fields. -/
def findUnknownFields : Json → Json → String → List String
  | .obj dkvs, .obj skvs, path =>
    (match lookupJ skvs "properties" with
     | some ⟨.obj props, _⟩ =>
       ((dkvs.map Prod.fst).filter (fun f => !(keyMem props f))).map (fun f => qualify path f)
         ++ findUnknownNested dkvs props path
     | _ => [])
  | _, _, _ => []
termination_by d s _ => sizeOf s + sizeOf d
decreasing_by
  all_goals simp_wf
  all_goals try simp_all
  all_goals omega

/-- The `for field_name, field_value in data.items()` loop of
`_find_unknown_fields`: for declared keys, recurse into nested objects
(when the property's sub-schema has `properties`) and into elements of
arrays (when the sub-schema has an `items` dict that itself has
`properties`). -/
def findUnknownNested : List (String × Json) → List (String × Json) → String → List String
  | [], _, _ => []
  | (fieldName, fieldValue) :: rest, props, path =>
    (match lookupJ props fieldName with
     | some ⟨fs, _⟩ =>
       (match fieldValue, fs with
        | .obj dkvs, .obj fskvs =>
          (match lookupJ fskvs "properties" with
           | some _ => findUnknownFields (.obj dkvs) (.obj fskvs) (qualify path fieldName)
           | none => [])
        | .arr elems, .obj fskvs =>
          (match lookupJ fskvs "items" with
           | some ⟨itemsSchema, _⟩ =>
             if hasKey itemsSchema "properties" then
               findUnknownItems itemsSchema elems 0 (qualify path fieldName)
             else []
           | none => [])
        | _, _ => [])
     | none => []) ++ findUnknownNested rest props path
termination_by dkvs props _ => sizeOf props + sizeOf dkvs
decreasing_by
  all_goals simp_wf
  all_goals try simp_all
  all_goals omega

/-- The `for i, item in enumerate(field_value)` loop of
`_find_unknown_fields`: recurse into each dict element of a declared
array, appending the `[index]` suffix to the path. -/
def findUnknownItems : Json → List Json → Nat → String → List String
  | _, [], _, _ => []
  | itemsSchema, item :: rest, i, fieldPath =>
    (match item with
     | .obj dkvs => findUnknownFields (.obj dkvs) itemsSchema (fieldPath ++ "[" ++ toString i ++ "]")
     | _ => []) ++ findUnknownItems itemsSchema rest (i + 1) fieldPath
termination_by its elems _ _ => sizeOf its + sizeOf elems
decreasing_by
  all_goals simp_wf
  all_goals try simp_all
  all_goals omega
end

mutual
/-- `CVValidator._extract_known_fields.extract_fields_recursive`: walk the
schema dict, and for each property record both its bare name and its
path-qualified name; recurse into the property's own sub-schema, into a
dict-valued `items`, and into every other dict-valued key (without adding
a path segment).  The Python code accumulates into a set; this returns
the accumulated list (deduplicated by the caller). -/
def extractFieldsRec : Json → String → List String
  | .obj kvs, pfx =>
    (match lookupJ kvs "properties" with
     | some ⟨.obj props, _⟩ => extractProps props pfx
     | _ => []) ++
    (match lookupJ kvs "items" with
     | some ⟨.obj ikvs, _⟩ => extractFieldsRec (.obj ikvs) pfx
     | _ => []) ++
    extractOthers kvs pfx
  | _, _ => []
termination_by j _ => sizeOf j
decreasing_by
  all_goals simp_wf
  all_goals try simp_all
  all_goals omega

/-- The `for field_name, field_def in obj['properties'].items()` loop of
`extract_fields_recursive`. -/
def extractProps : List (String × Json) → String → List String
  | [], _ => []
  | (name, fd) :: rest, pfx =>
    name :: qualify pfx name ::
      ((if fd.isDict then extractFieldsRec fd (qualify pfx name) else []) ++ extractProps rest pfx)
termination_by l _ => sizeOf l
decreasing_by
  all_goals simp_wf
  all_goals try simp_all
  all_goals omega

/-- The `for key, value in obj.items()` loop of
`extract_fields_recursive`: recurse into every dict value other than
`properties` and `items`, keeping the same prefix. -/
def extractOthers : List (String × Json) → String → List String
  | [], _ => []
  | (k, v) :: rest, pfx =>
    (if v.isDict && !(k == "properties") && !(k == "items") then extractFieldsRec v pfx else [])
      ++ extractOthers rest pfx
termination_by kvs _ => sizeOf kvs
decreasing_by
  all_goals simp_wf
  all_goals try simp_all
  all_goals omega
end

/-- `CVValidator._extract_known_fields`: the Known-Field Set, as the
deduplicated list of everything `extract_fields_recursive` adds (Python
accumulates into a `set`, whose iteration order is implementation
defined; membership is what matters). -/
def extractKnownFields (schema : Json) : List String :=
  (extractFieldsRec schema "").dedup

/-- Modelled from the spec: the number of matched characters between two
strings (their longest common subsequence), the `M` of the
edit-distance-ratio `2M/(len1+len2)` that the external `fuzzywuzzy`
library computes. -/
def lcsLen : List Char → List Char → Nat
  | [], _ => 0
  | _ :: _, [] => 0
  | a :: as, b :: bs =>
    if a = b then 1 + lcsLen as bs
    else max (lcsLen as (b :: bs)) (lcsLen (a :: as) bs)
termination_by as bs => (as.length, bs.length)

/-- Modelled from the spec: `fuzzywuzzy.fuzz.ratio` — the normalized
string-similarity score on a 0–100 scale, `round(100 * 2M/(len1+len2))`
with `M` the matched-character count; rounding is modelled as integer
(floor) division, and two empty strings score 100. -/
def fuzzScore (a b : String) : Nat :=
  if a.data.length + b.data.length = 0 then 100
  else (200 * lcsLen a.data b.data) / (a.data.length + b.data.length)

/-- Fold of `extractOneFW` keeping the first-seen best-scoring choice. -/
def extractOneAux (q : String) : List String → String × Nat → String × Nat
  | [], best => best
  | c :: cs, (b, sb) =>
    if fuzzScore q c > sb then extractOneAux q cs (c, fuzzScore q c)
    else extractOneAux q cs (b, sb)

/-- Modelled from the spec: `fuzzywuzzy.process.extractOne` — the choice
with the highest similarity score against the query, with its score;
`none` on an empty choice list.  Tie-breaking among equal top scores is
implementation-defined (the Python choices are a `set`); it is modelled
as first-in-list. -/
def extractOneFW (q : String) : List String → Option (String × Nat)
  | [] => none
  | c :: cs => some (extractOneAux q cs (c, fuzzScore q c))

/-- The apostrophe character (the quote that Python's `split("'")` uses). -/
def quoteChar : Char := Char.ofNat 39

/-- `CVValidator._suggest_field_name`: take the text after the last dot of
the unknown-field path, fuzzy-match it against the known fields, and
return the best match only when its score reaches the threshold. -/
def suggestFieldName (knownFields : List String) (unknownField : String) (threshold : Nat) : Option String :=
  let fieldName := lastSeg (splitChar '.' unknownField)
  match extractOneFW fieldName knownFields with
  | some (m, score) => if threshold ≤ score then some m else none
  | none => none

/-- A node locator component of a `jsonschema` error's `absolute_path`:
an object key or an array index. -/
inductive PathPart where
  | key (k : String)
  | idx (i : Nat)
deriving DecidableEq

/-- Python `str(p)` on a path component. -/
def pathPartStr : PathPart → String
  | .key k => k
  | .idx i => toString i

/-- Modelled from the spec: the fields of a `jsonschema.ValidationError`
that `_format_jsonschema_error` reads — the failing keyword
(`error.validator`), that keyword's schema value
(`error.validator_value`), the library's own message (`error.message`),
the offending value (`error.instance`, here `inst`), and the
root-relative location (`error.absolute_path`). -/
structure VError where
  validator : String
  validator_value : Json
  message : String
  inst : Json
  path : List PathPart

/-- Modelled from the spec: Python `repr` of a value as interpolated into
`jsonschema` messages (`"%r is a required property"` and similar);
strings are wrapped in single quotes (naive — the escaping Python applies
to strings that themselves contain quotes is not modelled, only the
quote-wrapping the spec's quote-splitting relies on). -/
def pyRepr : Json → String
  | .str s => "'" ++ s ++ "'"
  | v => pyStr v

/-- Modelled from the spec: the Draft-7 `type` keyword test.  Python
bools are not integers here (`jsonschema` special-cases them), and an
unrecognized type name constrains nothing. -/
def typeOk (t : String) (v : Json) : Bool :=
  if t == "object" then v.isDict
  else if t == "array" then (match v with | .arr _ => true | _ => false)
  else if t == "string" then (match v with | .str _ => true | _ => false)
  else if t == "integer" then (match v with | .int _ => true | _ => false)
  else if t == "number" then (match v with | .int _ => true | _ => false)
  else if t == "boolean" then (match v with | .bool _ => true | _ => false)
  else if t == "null" then (match v with | .null => true | _ => false)
  else true

mutual
/-- Modelled from the spec: value equality as the `enum` keyword tests it
(structural; dict comparison is modelled in insertion order, Python's is
order-insensitive, but enums of composite values do not occur in this
schema language's use). -/
def pyEq : Json → Json → Bool
  | .null, .null => true
  | .bool a, .bool b => a == b
  | .int a, .int b => a == b
  | .str a, .str b => a == b
  | .date a b c, .date a' b' c' => a == a' && b == b' && c == c'
  | .datetime a b c d e f, .datetime a' b' c' d' e' f' =>
    a == a' && b == b' && c == c' && d == d' && e == e' && f == f'
  | .arr xs, .arr ys => pyEqList xs ys
  | .obj xs, .obj ys => pyEqObj xs ys
  | _, _ => false

/-- Element-wise arm of `pyEq`. -/
def pyEqList : List Json → List Json → Bool
  | [], [] => true
  | x :: xs, y :: ys => pyEq x y && pyEqList xs ys
  | _, _ => false

/-- Entry-wise arm of `pyEq`. -/
def pyEqObj : List (String × Json) → List (String × Json) → Bool
  | [], [] => true
  | (k, v) :: xs, (k', v') :: ys => k == k' && pyEq v v' && pyEqObj xs ys
  | _, _ => false
end

/-- Character-list prefix test (for the modelled literal-pattern search). -/
def isPrefixOfChars : List Char → List Char → Bool
  | [], _ => true
  | _ :: _, [] => false
  | a :: as, b :: bs => a == b && isPrefixOfChars as bs

/-- Substring containment over character lists. -/
def containsSub : List Char → List Char → Bool
  | [], needle => needle.isEmpty
  | hay@(_ :: t), needle => isPrefixOfChars needle hay || containsSub t needle

/-- Modelled from the spec: the `pattern` keyword's `re.search`, for the
literal (metacharacter-free) patterns this schema language uses —
substring containment. -/
def reSearch (pat s : String) : Bool :=
  containsSub s.data pat.data

/-- Ten digit characters and two dashes in `YYYY-MM-DD` positions. -/
def isDateShape (s : String) : Bool :=
  match s.data with
  | [a, b, c, d, e, f, g, h, i, j] =>
    a.isDigit && b.isDigit && c.isDigit && d.isDigit && e == '-' &&
      f.isDigit && g.isDigit && h == '-' && i.isDigit && j.isDigit
  | _ => false

/-- Modelled from the spec: the `draft7_format_checker` test for a string
instance — `email` and `date` are the formats this schema uses; unknown
format names pass. -/
def formatOk (f s : String) : Bool :=
  if f == "email" then s.data.any (fun c => c == '@')
  else if f == "date" then isDateShape s
  else true

/-- The `type` keyword check of the modelled Draft-7 validator. -/
def typeErrors (skvs : List (String × Json)) (data : Json) (path : List PathPart) : List VError :=
  match lookupVal skvs "type" with
  | some (.str t) =>
    if typeOk t data then []
    else [⟨"type", .str t, pyRepr data ++ " is not of type '" ++ t ++ "'", data, path⟩]
  | _ => []

/-- The `enum` keyword check of the modelled Draft-7 validator. -/
def enumErrors (skvs : List (String × Json)) (data : Json) (path : List PathPart) : List VError :=
  match lookupVal skvs "enum" with
  | some (.arr vs) =>
    if vs.any (fun v => pyEq v data) then []
    else [⟨"enum", .arr vs, pyRepr data ++ " is not one of the allowed values", data, path⟩]
  | _ => []

/-- The `required` keyword check of the modelled Draft-7 validator: one
error per missing required property, with the library's
`'<name>' is a required property` message, located at the object that is
missing the field. -/
def requiredErrors (skvs : List (String × Json)) (data : Json) (path : List PathPart) : List VError :=
  match lookupVal skvs "required", data with
  | some (.arr rs), .obj dkvs =>
    rs.filterMap (fun r =>
      match r with
      | .str rn =>
        if keyMem dkvs rn then none
        else some ⟨"required", .arr rs, "'" ++ rn ++ "' is a required property", data, path⟩
      | _ => none)
  | _, _ => []

/-- The `pattern` keyword check of the modelled Draft-7 validator
(strings only). -/
def patternErrors (skvs : List (String × Json)) (data : Json) (path : List PathPart) : List VError :=
  match lookupVal skvs "pattern", data with
  | some (.str p), .str s =>
    if reSearch p s then []
    else [⟨"pattern", .str p, "'" ++ s ++ "' does not match '" ++ p ++ "'", data, path⟩]
  | _, _ => []

/-- The `format` keyword check of the modelled Draft-7 validator
(strings only, with the format checker enabled). -/
def formatErrors (skvs : List (String × Json)) (data : Json) (path : List PathPart) : List VError :=
  match lookupVal skvs "format", data with
  | some (.str f), .str s =>
    if formatOk f s then []
    else [⟨"format", .str f, "'" ++ s ++ "' is not a '" ++ f ++ "'", data, path⟩]
  | _, _ => []

/-- The `minLength` keyword check of the modelled Draft-7 validator. -/
def minLengthErrors (skvs : List (String × Json)) (data : Json) (path : List PathPart) : List VError :=
  match lookupVal skvs "minLength", data with
  | some (.int n), .str s =>
    if (s.data.length : Int) < n then [⟨"minLength", .int n, pyRepr data ++ " is too short", data, path⟩]
    else []
  | _, _ => []

/-- The `maxLength` keyword check of the modelled Draft-7 validator. -/
def maxLengthErrors (skvs : List (String × Json)) (data : Json) (path : List PathPart) : List VError :=
  match lookupVal skvs "maxLength", data with
  | some (.int n), .str s =>
    if n < (s.data.length : Int) then [⟨"maxLength", .int n, pyRepr data ++ " is too long", data, path⟩]
    else []
  | _, _ => []

/-- The `minItems` keyword check of the modelled Draft-7 validator. -/
def minItemsErrors (skvs : List (String × Json)) (data : Json) (path : List PathPart) : List VError :=
  match lookupVal skvs "minItems", data with
  | some (.int n), .arr xs =>
    if (xs.length : Int) < n then [⟨"minItems", .int n, pyRepr data ++ " is too short", data, path⟩]
    else []
  | _, _ => []

/-- The `maxItems` keyword check of the modelled Draft-7 validator. -/
def maxItemsErrors (skvs : List (String × Json)) (data : Json) (path : List PathPart) : List VError :=
  match lookupVal skvs "maxItems", data with
  | some (.int n), .arr xs =>
    if n < (xs.length : Int) then [⟨"maxItems", .int n, pyRepr data ++ " is too long", data, path⟩]
    else []
  | _, _ => []

mutual
/-- Modelled from the spec: `jsonschema.Draft7Validator.iter_errors` with
`draft7_format_checker`, for the keyword set the spec names (`type`,
`properties`, `required`, `items`, `pattern`, `enum`, `format`,
`minLength`/`maxLength`, `minItems`/`maxItems`): enumerate every
structural violation of the schema in one pass, never short-circuiting,
each error carrying its failing keyword, message and root-relative
location.  The relative order of the enumerated errors is
implementation-defined and modelled as keyword order then document
order. -/
def iterErrors (schema data : Json) (path : List PathPart) : List VError :=
  match schema with
  | .obj skvs =>
    typeErrors skvs data path ++ enumErrors skvs data path ++ requiredErrors skvs data path
      ++ patternErrors skvs data path ++ formatErrors skvs data path
      ++ minLengthErrors skvs data path ++ maxLengthErrors skvs data path
      ++ minItemsErrors skvs data path ++ maxItemsErrors skvs data path
      ++ (match lookupJ skvs "properties" with
          | some ⟨.obj props, _⟩ => iterPropsErrors props data path
          | _ => [])
      ++ (match lookupJ skvs "items" with
          | some ⟨.obj ikvs, _⟩ =>
            (match data with
             | .arr elems => iterItemsErrors (.obj ikvs) elems 0 path
             | _ => [])
          | _ => [])
  | _ => []
termination_by sizeOf schema + sizeOf data
decreasing_by
  all_goals simp_wf
  all_goals try simp_all
  all_goals omega

/-- The `properties` arm of the modelled validator: validate each
declared property that is present in the object, extending the path with
the property name. -/
def iterPropsErrors : List (String × Json) → Json → List PathPart → List VError
  | [], _, _ => []
  | (k, sub) :: rest, data, path =>
    (match data with
     | .obj dkvs =>
       (match lookupJ dkvs k with
        | some ⟨v, _⟩ => iterErrors sub v (path ++ [.key k])
        | none => [])
     | _ => []) ++ iterPropsErrors rest data path
termination_by props data _ => sizeOf props + sizeOf data
decreasing_by
  all_goals simp_wf
  all_goals try simp_all
  all_goals omega

/-- The `items` arm of the modelled validator: validate each array
element against the item schema, extending the path with the index. -/
def iterItemsErrors : Json → List Json → Nat → List PathPart → List VError
  | _, [], _, _ => []
  | itemsSchema, e :: rest, i, path =>
    iterErrors itemsSchema e (path ++ [.idx i]) ++ iterItemsErrors itemsSchema rest (i + 1) path
termination_by its elems _ _ => sizeOf its + sizeOf elems
decreasing_by
  all_goals simp_wf
  all_goals try simp_all
  all_goals omega
end

/-- `ValidationLevel` (`validation_result.py`): severity of a message. -/
inductive ValidationLevel where
  | error
  | warning
  | info
deriving DecidableEq

/-- `ValidationMessage` (`validation_result.py`): one validation message
with its severity, the dotted/bracketed location of the offending value
(`""` = document root), the human text, and an optional suggestion. -/
structure ValidationMessage where
  level : ValidationLevel
  field_path : String
  message : String
  suggestion : Option String
deriving DecidableEq

/-- `ValidationResult` (`validation_result.py`): the overall validity
flag, the ordered messages, and the ordered unknown-field paths. -/
structure ValidationResult where
  is_valid : Bool
  messages : List ValidationMessage
  unknown_fields : List String
deriving DecidableEq

/-- Bool test for the error level. -/
def isErrorLevel : ValidationLevel → Bool
  | .error => true
  | _ => false

/-- Bool test for the warning level. -/
def isWarningLevel : ValidationLevel → Bool
  | .warning => true
  | _ => false

/-- `ValidationResult.errors`: the error-level messages, in order. -/
def ValidationResult.errors (r : ValidationResult) : List ValidationMessage :=
  r.messages.filter (fun m => isErrorLevel m.level)

/-- `ValidationResult.warnings`: the warning-level messages, in order. -/
def ValidationResult.warnings (r : ValidationResult) : List ValidationMessage :=
  r.messages.filter (fun m => isWarningLevel m.level)

/-- `ValidationResult.has_errors`. -/
def ValidationResult.has_errors (r : ValidationResult) : Bool :=
  r.errors.length != 0

/-- `ValidationResult.has_warnings`. -/
def ValidationResult.has_warnings (r : ValidationResult) : Bool :=
  r.warnings.length != 0

/-- Python `", ".join(parts)`. -/
def joinComma : List String → String
  | [] => ""
  | [x] => x
  | x :: xs => x ++ ", " ++ joinComma xs

/-- `CVValidator._format_jsonschema_error`: turn a library error into an
error-level `ValidationMessage` — the field path is the dot-joined
absolute path (empty at the document root), and the message text is
tailored by the failing keyword; the `required` case extracts the field
name by splitting the library message on single quotes (`"field"` when
the message carries no quote). -/
def formatJsonschemaError (e : VError) : ValidationMessage :=
  let fieldPath := joinDot (e.path.map pathPartStr)
  let message :=
    if e.validator == "required" then
      let missing :=
        match splitChar quoteChar e.message with
        | _ :: x :: _ => x
        | _ => "field"
      "Required field '" ++ missing ++ "' is missing"
    else if e.validator == "type" then
      "Expected " ++ pyStr e.validator_value ++ ", got " ++ pyTypeName e.inst
    else if e.validator == "format" then
      "Invalid format: " ++ e.message
    else if e.validator == "pattern" then
      "Value doesn't match required pattern"
    else if e.validator == "enum" then
      let allowed :=
        match e.validator_value with
        | .arr vs => joinComma (vs.map (fun v => "'" ++ pyStr v ++ "'"))
        | v => "'" ++ pyStr v ++ "'"
      "Value must be one of: " ++ allowed
    else if e.validator == "minLength" || e.validator == "maxLength" then
      "String length validation failed: " ++ e.message
    else if e.validator == "minItems" || e.validator == "maxItems" then
      "Array size validation failed: " ++ e.message
    else
      e.message
  ⟨.error, fieldPath, message, none⟩

/-- `CVValidator`: the loaded schema and the Known-Field Set computed
once at construction (`__init__`; the schema file's reading and parsing
is the external loader). -/
structure CVValidator where
  schema : Json
  known_fields : List String

/-- `CVValidator.__init__` with an already-parsed schema: store it and
extract the known fields once. -/
def mkValidator (schema : Json) : CVValidator :=
  ⟨schema, extractKnownFields schema⟩

/-- The warning-level message `validate_cv_data` builds for one
unknown-field path, with the optional `Did you mean ...?` suggestion. -/
def unknownFieldWarning (knownFields : List String) (uf : String) : ValidationMessage :=
  let suggestionText :=
    match suggestFieldName knownFields uf 60 with
    | some s => some ("Did you mean '" ++ s ++ "'?")
    | none => none
  ⟨.warning, uf, "Unknown field '" ++ uf ++ "'", suggestionText⟩

/-- `CVValidator.validate_cv_data`: normalize the data, collect all
structural violations of the schema over the normalized data (the
`validate` call raises exactly when at least one exists, and the
`except` branch then formats every error of `iter_errors`), then append
one warning per unknown field found over the original data.  Total —
never raises. -/
def validate_cv_data (v : CVValidator) (cv_data : Json) : ValidationResult :=
  let normalized := normalize cv_data
  let errs := iterErrors v.schema normalized []
  let is_valid := errs.isEmpty
  let structuralMsgs := if is_valid then [] else errs.map formatJsonschemaError
  let unknown := findUnknownFields cv_data v.schema ""
  let warnMsgs := unknown.map (fun uf => unknownFieldWarning v.known_fields uf)
  ⟨is_valid, structuralMsgs ++ warnMsgs, unknown⟩

/-- Modelled from the spec: the outcome of the external loader's
`open`/`yaml.safe_load` on the data file — parsed data, a missing file,
or a parse failure. -/
inductive LoadOutcome where
  | success (data : Json)
  | fileNotFound (name : String)
  | parseError (err : String)

/-- `CVValidator.validate_yaml_file`: load failures are converted into a
single root-level error message inside an invalid result; successfully
parsed data is validated by `validate_cv_data`. -/
def validate_yaml_file (v : CVValidator) : LoadOutcome → ValidationResult
  | .success d => validate_cv_data v d
  | .fileNotFound name =>
    ⟨false, [⟨.error, "", "YAML file not found: " ++ name, none⟩], []⟩
  | .parseError err =>
    ⟨false, [⟨.error, "", "Error parsing YAML file: " ++ err, none⟩], []⟩

mutual
/-- The Unknown-Field Detector contract as the spec words it, producing
explicit occurrences: pairs of (path of the containing object, unknown
key).  At each object level, each actual key not among the schema's
declared property names is one occurrence; declared keys whose schema
marks them as nested objects are recursed into, and declared arrays of
objects are recursed into element-wise with an `[index]` suffix on the
path. -/
def specUnknownOccs : Json → Json → String → List (String × String)
  | .obj dkvs, .obj skvs, path =>
    (match lookupJ skvs "properties" with
     | some ⟨.obj props, _⟩ =>
       ((dkvs.map Prod.fst).filter (fun f => !(keyMem props f))).map (fun f => (path, f))
         ++ specUnknownNestedOccs dkvs props path
     | _ => [])
  | _, _, _ => []
termination_by d s _ => sizeOf s + sizeOf d
decreasing_by
  all_goals simp_wf
  all_goals try simp_all
  all_goals omega

/-- Recursion into declared keys, for `specUnknownOccs`. -/
def specUnknownNestedOccs : List (String × Json) → List (String × Json) → String → List (String × String)
  | [], _, _ => []
  | (fieldName, fieldValue) :: rest, props, path =>
    (match lookupJ props fieldName with
     | some ⟨fs, _⟩ =>
       (match fieldValue, fs with
        | .obj dkvs, .obj fskvs =>
          (match lookupJ fskvs "properties" with
           | some _ => specUnknownOccs (.obj dkvs) (.obj fskvs) (qualify path fieldName)
           | none => [])
        | .arr elems, .obj fskvs =>
          (match lookupJ fskvs "items" with
           | some ⟨itemsSchema, _⟩ =>
             if hasKey itemsSchema "properties" then
               specUnknownItemsOccs itemsSchema elems 0 (qualify path fieldName)
             else []
           | none => [])
        | _, _ => [])
     | none => []) ++ specUnknownNestedOccs rest props path
termination_by dkvs props _ => sizeOf props + sizeOf dkvs
decreasing_by
  all_goals simp_wf
  all_goals try simp_all
  all_goals omega

/-- Element-wise recursion into declared arrays of objects, for
`specUnknownOccs`. -/
def specUnknownItemsOccs : Json → List Json → Nat → String → List (String × String)
  | _, [], _, _ => []
  | itemsSchema, item :: rest, i, fieldPath =>
    (match item with
     | .obj dkvs => specUnknownOccs (.obj dkvs) itemsSchema (fieldPath ++ "[" ++ toString i ++ "]")
     | _ => []) ++ specUnknownItemsOccs itemsSchema rest (i + 1) fieldPath
termination_by its elems _ _ => sizeOf its + sizeOf elems
decreasing_by
  all_goals simp_wf
  all_goals try simp_all
  all_goals omega
end

/-- The schema-tree walk of the Schema Loader as the spec words it, as a
reachability relation: `SchemaReaches j p n q` holds when the walk that
starts at node `j` with path prefix `p` visits node `n` with prefix `q` —
descending into a property's own sub-schema extends the prefix with the
property name, while descending into an array node's dict `items` or into
any other dict-valued structural keyword keeps the prefix. -/
inductive SchemaReaches : Json → String → Json → String → Prop where
  | refl (j : Json) (p : String) : SchemaReaches j p j p
  | viaProp {j : Json} {p : String} {kvs : List (String × Json)} {q : String}
      {props : List (String × Json)} {name : String} {fd : Json} :
      SchemaReaches j p (.obj kvs) q →
      lookupVal kvs "properties" = some (.obj props) →
      (name, fd) ∈ props →
      fd.isDict = true →
      SchemaReaches j p fd (qualify q name)
  | viaItems {j : Json} {p : String} {kvs : List (String × Json)} {q : String}
      {ikvs : List (String × Json)} :
      SchemaReaches j p (.obj kvs) q →
      lookupVal kvs "items" = some (.obj ikvs) →
      SchemaReaches j p (.obj ikvs) q
  | viaOther {j : Json} {p : String} {kvs : List (String × Json)} {q : String}
      {k : String} {v : Json} :
      SchemaReaches j p (.obj kvs) q →
      (k, v) ∈ kvs →
      v.isDict = true →
      k ≠ "properties" →
      k ≠ "items" →
      SchemaReaches j p v q

/-- The Structural Validator's tailored-message table as the spec words
it, parameterized by the name of the missing required field for the
`required` row (the spec's `<name>`); the `<detail>` placeholders are the
underlying validator's message. -/
def specTableMessage (e : VError) (missingName : String) : String :=
  if e.validator == "required" then
    "Required field '" ++ missingName ++ "' is missing"
  else if e.validator == "type" then
    "Expected " ++ pyStr e.validator_value ++ ", got " ++ pyTypeName e.inst
  else if e.validator == "format" then
    "Invalid format: " ++ e.message
  else if e.validator == "pattern" then
    "Value doesn't match required pattern"
  else if e.validator == "enum" then
    let allowed :=
      match e.validator_value with
      | .arr vs => joinComma (vs.map (fun v => "'" ++ pyStr v ++ "'"))
      | v => "'" ++ pyStr v ++ "'"
    "Value must be one of: " ++ allowed
  else if e.validator == "minLength" || e.validator == "maxLength" then
    "String length validation failed: " ++ e.message
  else if e.validator == "minItems" || e.validator == "maxItems" then
    "Array size validation failed: " ++ e.message
  else
    e.message

/-- The Levenshtein edit distance (insertions, deletions,
substitutions), used to state what "a single-character edit away"
means. -/
def levenshtein : List Char → List Char → Nat
  | [], bs => bs.length
  | as, [] => as.length
  | a :: as, b :: bs =>
    if a = b then levenshtein as bs
    else 1 + min (levenshtein as bs) (min (levenshtein as (b :: bs)) (levenshtein (a :: as) bs))
termination_by as bs => (as.length, bs.length)

/-- Example schema: one nested-object property `a`, itself declaring only
`c`. -/
def exSchemaDotted : Json :=
  .obj [("properties", .obj [("a", .obj [("properties", .obj [("c", .obj [])])])])]

/-- Example document with a literal dotted key `a.b` at the root and an
unknown key `b` inside the declared object `a` — two distinct unknown
keys whose rendered paths coincide. -/
def exDocDotted : Json := .obj [("a.b", .int 1), ("a", .obj [("b", .int 2)])]

/-- Example schema declaring a string `name` and requiring `email`. -/
def exSchemaEmail : Json :=
  .obj [("type", .str "object"),
    ("properties", .obj [("name", .obj [("type", .str "string")])]),
    ("required", .arr [.str "email"])]

/-- Example document carrying only `name`. -/
def exDocName : Json := .obj [("name", .str "A")]

/-- The library error `exSchemaEmail` produces on `exDocName`. -/
def eEmail : VError :=
  ⟨"required", .arr [.str "email"], "'email' is a required property",
    .obj [("name", .str "A")], []⟩

/-- Example schema whose required field name contains an apostrophe. -/
def exSchemaApos : Json :=
  .obj [("type", .str "object"),
    ("required", .arr [.str "a'b"]),
    ("properties", .obj [("a'b", .obj [("type", .str "string")])])]

/-- Example schema requiring a field whose name contains an apostrophe,
with no other constraints. -/
def exSchemaAposTop : Json :=
  .obj [("type", .str "object"), ("required", .arr [.str "x'y"])]

/-- Example schema declaring the single property `x`. -/
def exSchemaSingleX : Json := .obj [("properties", .obj [("x", .obj [])])]

/-- Example schema with an array property `work` whose item objects
declare `role`. -/
def exSchemaWork : Json :=
  .obj [("properties", .obj [("work",
    .obj [("type", .str "array"),
      ("items", .obj [("properties", .obj [("role", .obj [])])])])])]

/-- Example schema expecting a string at property `birthdate`. -/
def exSchemaBirth : Json :=
  .obj [("type", .str "object"),
    ("properties", .obj [("birthdate", .obj [("type", .str "string")])])]

theorem lookupVal_some {kvs : List (String × Json)} {key : String} {v : Json}
    (h : lookupVal kvs key = some v) :
    ∃ hlt : sizeOf v < sizeOf kvs, lookupJ kvs key = some ⟨v, hlt⟩ := by
  unfold lookupVal at h
  rcases hJ : lookupJ kvs key with _ | ⟨w, hw⟩ <;> rw [hJ] at h
  · cases h
  · cases h
    exact ⟨hw, rfl⟩

theorem normalizeArr_eq (l : List Json) : normalizeArr l = l.map normalize := by
  induction l with
  | nil => rfl
  | cons x xs ih => rw [normalizeArr, ih, List.map_cons]

theorem normalizeObj_eq (kvs : List (String × Json)) :
    normalizeObj kvs = kvs.map (fun p => (p.1, normalize p.2)) := by
  induction kvs with
  | nil => rfl
  | cons hd rest ih =>
    obtain ⟨k, v⟩ := hd
    rw [normalizeObj, ih, List.map_cons]

theorem formatJsonschemaError_level (e : VError) :
    (formatJsonschemaError e).level = .error := by
  simp [formatJsonschemaError]

theorem unknownFieldWarning_level (kf : List String) (uf : String) :
    (unknownFieldWarning kf uf).level = .warning ∧ (unknownFieldWarning kf uf).field_path = uf := by
  simp [unknownFieldWarning]

/-- The exact shape `validate_cv_data` aggregates: formatted structural
errors first, then one unknown-field warning per detected unknown field,
with the validity flag read off the structural errors alone. -/
theorem validate_cv_data_eq (v : CVValidator) (d : Json) :
    validate_cv_data v d =
      ⟨(iterErrors v.schema (normalize d) []).isEmpty,
       (iterErrors v.schema (normalize d) []).map formatJsonschemaError
         ++ (findUnknownFields d v.schema "").map (unknownFieldWarning v.known_fields),
       findUnknownFields d v.schema ""⟩ := by
  unfold validate_cv_data
  by_cases h : (iterErrors v.schema (normalize d) []).isEmpty
  · simp_all [List.isEmpty_iff]
  · simp_all

theorem errors_of_validate (v : CVValidator) (d : Json) :
    (validate_cv_data v d).errors =
      (iterErrors v.schema (normalize d) []).map formatJsonschemaError := by
  rw [validate_cv_data_eq]
  show List.filter _ (_ ++ _) = _
  rw [List.filter_append, List.filter_eq_self.2, List.filter_eq_nil_iff.2, List.append_nil]
  · intro m hm
    obtain ⟨uf, _, rfl⟩ := List.mem_map.1 hm
    simp [unknownFieldWarning, isErrorLevel]
  · intro m hm
    obtain ⟨e, _, rfl⟩ := List.mem_map.1 hm
    simp [formatJsonschemaError_level e, isErrorLevel]

theorem warnings_of_validate (v : CVValidator) (d : Json) :
    (validate_cv_data v d).warnings =
      (findUnknownFields d v.schema "").map (unknownFieldWarning v.known_fields) := by
  rw [validate_cv_data_eq]
  show List.filter _ (_ ++ _) = _
  rw [List.filter_append, List.filter_eq_nil_iff.2, List.filter_eq_self.2, List.nil_append]
  · intro m hm
    obtain ⟨uf, _, rfl⟩ := List.mem_map.1 hm
    simp [unknownFieldWarning, isWarningLevel]
  · intro m hm
    obtain ⟨e, _, rfl⟩ := List.mem_map.1 hm
    simp [formatJsonschemaError, isWarningLevel]

theorem unknowns_of_validate (v : CVValidator) (d : Json) :
    (validate_cv_data v d).unknown_fields = findUnknownFields d v.schema "" := by
  rw [validate_cv_data_eq]

theorem splitCharAux_no_sep (c : Char) (cs : List Char) (h : c ∉ cs) (acc : List Char) :
    splitCharAux c cs acc = [acc.reverse ++ cs] := by
  induction cs generalizing acc with
  | nil => simp [splitCharAux]
  | cons x xs ih =>
    simp only [List.mem_cons, not_or] at h
    rw [splitCharAux, if_neg (fun hxc => h.1 hxc.symm), ih h.2]
    simp

theorem splitCharAux_append (c : Char) (cs : List Char) (h : c ∉ cs) (rest acc : List Char) :
    splitCharAux c (cs ++ c :: rest) acc = (acc.reverse ++ cs) :: splitCharAux c rest [] := by
  induction cs generalizing acc with
  | nil => simp [splitCharAux]
  | cons x xs ih =>
    simp only [List.mem_cons, not_or] at h
    rw [List.cons_append, splitCharAux, if_neg (fun hxc => h.1 hxc.symm), ih h.2]
    simp

theorem splitChar_requiredMsg (name : String) (h : quoteChar ∉ name.data) :
    splitChar quoteChar ("'" ++ name ++ "' is a required property") =
      "" :: name :: [" is a required property"] := by
  have hdata : ("'" ++ name ++ "' is a required property").data
      = quoteChar :: (name.data ++ quoteChar :: " is a required property".data) := by
    rw [String.append_assoc, String.data_append, String.data_append]
    rw [show ("'" : String).data = [quoteChar] from by decide,
        show ("' is a required property" : String).data
          = quoteChar :: (" is a required property" : String).data from by decide]
    simp
  have htail : quoteChar ∉ " is a required property".data := by decide
  unfold splitChar
  rw [hdata, splitCharAux, if_pos rfl, splitCharAux_append _ _ h,
    splitCharAux_no_sep _ _ htail]
  simp

theorem unknown_eq_spec (n : Nat) :
    (∀ d s p, sizeOf s + sizeOf d ≤ n →
       findUnknownFields d s p = (specUnknownOccs d s p).map (fun o => qualify o.1 o.2)) ∧
    (∀ dkvs props p, sizeOf props + sizeOf dkvs ≤ n →
       findUnknownNested dkvs props p = (specUnknownNestedOccs dkvs props p).map (fun o => qualify o.1 o.2)) ∧
    (∀ its elems i p, sizeOf its + sizeOf elems ≤ n →
       findUnknownItems its elems i p = (specUnknownItemsOccs its elems i p).map (fun o => qualify o.1 o.2)) := by
  induction n using Nat.strong_induction_on with
  | _ n ih =>
    refine ⟨?_, ?_, ?_⟩
    · intro d s p hn
      rw [findUnknownFields.eq_def, specUnknownOccs.eq_def]
      cases d <;> cases s <;> try rfl
      rename_i dkvs skvs
      rcases hJ : lookupJ skvs "properties" with _ | ⟨v, hlt⟩
      · simp [hJ]
      · cases v <;> simp only [hJ] <;> try simp
        rename_i props
        have hrec := (ih (sizeOf props + sizeOf dkvs)
            (by simp at hn hlt ⊢; omega)).2.1 dkvs props p (le_refl _)
        rw [hrec]
        simp [List.map_map]
        try rfl
    · intro dkvs props p hn
      rw [findUnknownNested.eq_def, specUnknownNestedOccs.eq_def]
      cases dkvs with
      | nil => rfl
      | cons hd rest =>
        obtain ⟨fieldName, fieldValue⟩ := hd
        simp only [List.map_append]
        have hrest := (ih (sizeOf props + sizeOf rest)
            (by simp at hn ⊢; omega)).2.1 rest props p (le_refl _)
        rw [hrest]
        congr 1
        rcases hJ : lookupJ props fieldName with _ | ⟨fs, hlt⟩
        · simp [hJ]
        · cases fieldValue <;> cases fs <;> simp only [hJ] <;> try simp
          · rename_i elems fskvs
            rcases hJ2 : lookupJ fskvs "items" with _ | ⟨its, hlt2⟩
            · simp [hJ2]
            · simp only [hJ2]
              by_cases hk : hasKey its "properties" <;>
                simp only [hk, if_true, if_false] <;> try simp
              exact (ih (sizeOf its + sizeOf elems)
                (by simp at hn hlt hlt2 ⊢; omega)).2.2 its elems 0
                (qualify p fieldName) (le_refl _)
          · rename_i dkvs2 fskvs
            rcases hJ2 : lookupJ fskvs "properties" with _ | ⟨w, hlt2⟩
            · simp [hJ2]
            · simp only [hJ2]
              exact (ih (sizeOf (Json.obj fskvs) + sizeOf (Json.obj dkvs2))
                (by simp at hn hlt ⊢; omega)).1 (.obj dkvs2) (.obj fskvs)
                (qualify p fieldName) (le_refl _)
    · intro its elems i p hn
      rw [findUnknownItems.eq_def, specUnknownItemsOccs.eq_def]
      cases elems with
      | nil => rfl
      | cons item rest =>
        simp only [List.map_append]
        have hrest := (ih (sizeOf its + sizeOf rest)
            (by simp at hn ⊢; omega)).2.2 its rest (i + 1) p (le_refl _)
        rw [hrest]
        congr 1
        cases item <;> try rfl
        rename_i dkvs2
        exact (ih (sizeOf its + sizeOf (Json.obj dkvs2))
          (by simp at hn ⊢; omega)).1 (.obj dkvs2) its
          (p ++ "[" ++ toString i ++ "]") (le_refl _)


theorem extractOneAux_fst_mem (q : String) (cs : List String) (best : String × Nat) :
    extractOneAux q cs best = best ∨ (extractOneAux q cs best).1 ∈ cs := by
  induction cs generalizing best with
  | nil => exact Or.inl rfl
  | cons c rest ih =>
    obtain ⟨b, sb⟩ := best
    rw [extractOneAux]
    split
    · rcases ih (c, fuzzScore q c) with h | h
      · right
        rw [h]
        exact List.mem_cons_self _ _
      · exact Or.inr (List.mem_cons_of_mem _ h)
    · rcases ih (b, sb) with h | h
      · exact Or.inl h
      · exact Or.inr (List.mem_cons_of_mem _ h)

theorem extractOneAux_snd (q : String) (cs : List String) (best : String × Nat)
    (hb : best.2 = fuzzScore q best.1) :
    (extractOneAux q cs best).2 = fuzzScore q (extractOneAux q cs best).1 := by
  induction cs generalizing best with
  | nil => exact hb
  | cons c rest ih =>
    obtain ⟨b, sb⟩ := best
    rw [extractOneAux]
    split
    · exact ih (c, fuzzScore q c) rfl
    · exact ih (b, sb) hb

theorem extractOneAux_le (q : String) (cs : List String) (best : String × Nat) :
    best.2 ≤ (extractOneAux q cs best).2 := by
  induction cs generalizing best with
  | nil => exact le_refl _
  | cons c rest ih =>
    obtain ⟨b, sb⟩ := best
    rw [extractOneAux]
    split
    · rename_i hgt
      exact le_trans (le_of_lt hgt) (ih (c, fuzzScore q c))
    · exact ih (b, sb)

theorem extractOneAux_max (q : String) (cs : List String) (best : String × Nat) :
    ∀ x ∈ cs, fuzzScore q x ≤ (extractOneAux q cs best).2 := by
  induction cs generalizing best with
  | nil => intro x hx; cases hx
  | cons c rest ih =>
    obtain ⟨b, sb⟩ := best
    intro x hx
    rcases List.mem_cons.1 hx with rfl | hx'
    · rw [extractOneAux]
      split
      · exact le_trans (le_refl _) (by simpa using extractOneAux_le q rest (x, fuzzScore q x))
      · rename_i hle
        push_neg at hle
        exact le_trans hle (by simpa using extractOneAux_le q rest (b, sb))
    · rw [extractOneAux]
      split
      · exact ih (c, fuzzScore q c) x hx'
      · exact ih (b, sb) x hx'

theorem extractOneFW_some (q : String) (kf : List String) (m : String) (sc : Nat)
    (h : extractOneFW q kf = some (m, sc)) :
    m ∈ kf ∧ sc = fuzzScore q m ∧ ∀ x ∈ kf, fuzzScore q x ≤ sc := by
  cases kf with
  | nil => cases h
  | cons c rest =>
    rw [extractOneFW] at h
    have hr : extractOneAux q rest (c, fuzzScore q c) = (m, sc) := Option.some.inj h
    refine ⟨?_, ?_, ?_⟩
    · rcases extractOneAux_fst_mem q rest (c, fuzzScore q c) with he | he
      · rw [hr] at he
        cases he
        exact List.mem_cons_self _ _
      · rw [hr] at he
        exact List.mem_cons_of_mem _ he
    · have := extractOneAux_snd q rest (c, fuzzScore q c) rfl
      rw [hr] at this
      exact this
    · intro x hx
      rcases List.mem_cons.1 hx with rfl | hx'
      · have := extractOneAux_le q rest (x, fuzzScore q x)
        rw [hr] at this
        exact this
      · have := extractOneAux_max q rest (c, fuzzScore q c) x hx'
        rw [hr] at this
        exact this


theorem extractProps_mem (pfx : String) {props : List (String × Json)} {name : String} {fd : Json}
    (h : (name, fd) ∈ props) :
    name ∈ extractProps props pfx ∧ qualify pfx name ∈ extractProps props pfx := by
  induction props with
  | nil => cases h
  | cons hd rest ih =>
    obtain ⟨a, b⟩ := hd
    rw [extractProps]
    rcases List.mem_cons.1 h with heq | hmem
    · obtain ⟨rfl, rfl⟩ := Prod.mk.injEq .. ▸ heq
      constructor <;> simp
    · have := ih hmem
      constructor <;> simp [this.1, this.2]

theorem extractProps_sub {props : List (String × Json)} {pfx name : String} {fd : Json}
    (h : (name, fd) ∈ props) (hd : fd.isDict = true) :
    ∀ x ∈ extractFieldsRec fd (qualify pfx name), x ∈ extractProps props pfx := by
  induction props with
  | nil => cases h
  | cons hd0 rest ih =>
    obtain ⟨a, b⟩ := hd0
    intro x hx
    rw [extractProps]
    rcases List.mem_cons.1 h with heq | hmem
    · obtain ⟨rfl, rfl⟩ := Prod.mk.injEq .. ▸ heq
      simp only [hd, if_true]
      simp [List.mem_append, hx]
    · simp [List.mem_append, ih hmem x hx]

theorem extractFieldsRec_obj_decomp (kvs : List (String × Json)) (pfx : String) :
    extractFieldsRec (.obj kvs) pfx =
      (match lookupJ kvs "properties" with
       | some ⟨.obj props, _⟩ => extractProps props pfx
       | _ => []) ++
      (match lookupJ kvs "items" with
       | some ⟨.obj ikvs, _⟩ => extractFieldsRec (.obj ikvs) pfx
       | _ => []) ++
      extractOthers kvs pfx := by
  rw [extractFieldsRec.eq_def]

theorem extractFieldsRec_props_sub {kvs : List (String × Json)} {pfx : String}
    {props : List (String × Json)}
    (h : lookupVal kvs "properties" = some (.obj props)) :
    ∀ x ∈ extractProps props pfx, x ∈ extractFieldsRec (.obj kvs) pfx := by
  obtain ⟨hlt, hJ⟩ := lookupVal_some h
  intro x hx
  rw [extractFieldsRec_obj_decomp]
  simp only [hJ]
  simp [List.mem_append, hx]

theorem extractFieldsRec_items_sub {kvs : List (String × Json)} {pfx : String}
    {ikvs : List (String × Json)}
    (h : lookupVal kvs "items" = some (.obj ikvs)) :
    ∀ x ∈ extractFieldsRec (.obj ikvs) pfx, x ∈ extractFieldsRec (.obj kvs) pfx := by
  obtain ⟨hlt, hJ⟩ := lookupVal_some h
  intro x hx
  rw [extractFieldsRec_obj_decomp]
  simp only [hJ]
  simp [List.mem_append, hx]

theorem extractOthers_sub {kvs : List (String × Json)} {pfx k : String} {v : Json}
    (hm : (k, v) ∈ kvs) (hd : v.isDict = true)
    (h1 : k ≠ "properties") (h2 : k ≠ "items") :
    ∀ x ∈ extractFieldsRec v pfx, x ∈ extractOthers kvs pfx := by
  induction kvs with
  | nil => cases hm
  | cons hd0 rest ih =>
    obtain ⟨a, b⟩ := hd0
    intro x hx
    rw [extractOthers]
    rcases List.mem_cons.1 hm with heq | hmem
    · obtain ⟨rfl, rfl⟩ := Prod.mk.injEq .. ▸ heq
      simp [hd, h1, h2, List.mem_append, hx]
    · simp [List.mem_append, ih hmem x hx]

theorem extractOthers_in_rec {kvs : List (String × Json)} {pfx : String} :
    ∀ x ∈ extractOthers kvs pfx, x ∈ extractFieldsRec (.obj kvs) pfx := by
  intro x hx
  rw [extractFieldsRec_obj_decomp]
  exact List.mem_append_right _ hx

theorem reaches_subset {j : Json} {p : String} {n : Json} {q : String}
    (h : SchemaReaches j p n q) :
    ∀ x ∈ extractFieldsRec n q, x ∈ extractFieldsRec j p := by
  induction h with
  | refl => exact fun x hx => hx
  | viaProp hre hlook hmem hdict ih =>
    exact fun x hx => ih _ (extractFieldsRec_props_sub hlook _ (extractProps_sub hmem hdict _ hx))
  | viaItems hre hlook ih =>
    exact fun x hx => ih _ (extractFieldsRec_items_sub hlook _ hx)
  | viaOther hre hmem hdict h1 h2 ih =>
    exact fun x hx => ih _ (extractOthers_in_rec _ (extractOthers_sub hmem hdict h1 h2 _ hx))


/-- C1: for every already-parsed input document, the result of
`validate_cv_data` has `is_valid = false` exactly when the structural
validator reports at least one violation of the schema on the normalized
input, and the result carries exactly one error-level message per
structural violation (unknown-field warnings are warning-level and never
counted). -/
theorem c1_validity_iff_structural_violations (v : CVValidator) (d : Json) :
    ((validate_cv_data v d).is_valid = false ↔ iterErrors v.schema (normalize d) [] ≠ []) ∧
    (validate_cv_data v d).errors.length = (iterErrors v.schema (normalize d) []).length := by
  constructor
  · rw [validate_cv_data_eq]
    simp [List.isEmpty_iff]
  · rw [errors_of_validate]
    simp

/-- C4: all structural violations of one document are reported in a
single `validate_cv_data` call — the error-level messages are exactly the
formatted image of the full violation list (none is dropped by
short-circuiting, and the function is total, so none escapes as an
exception), and every message of the result is accounted for. -/
theorem c4_all_violations_reported (v : CVValidator) (d : Json) :
    (validate_cv_data v d).errors =
      (iterErrors v.schema (normalize d) []).map formatJsonschemaError ∧
    (validate_cv_data v d).messages.length =
      (iterErrors v.schema (normalize d) []).length + (findUnknownFields d v.schema "").length := by
  refine ⟨errors_of_validate v d, ?_⟩
  rw [validate_cv_data_eq]
  simp

/-- C10: the messages of a `validate_cv_data` result are exactly the
error-level structural messages followed by one warning per element of
`unknown_fields`, in the same order, and each warning's `field_path` is
the corresponding unknown-field path (all at warning level). -/
theorem c10_messages_decomposition (v : CVValidator) (d : Json) :
    (validate_cv_data v d).messages =
      (validate_cv_data v d).errors
        ++ (validate_cv_data v d).unknown_fields.map (unknownFieldWarning v.known_fields) ∧
    ((validate_cv_data v d).unknown_fields.map (unknownFieldWarning v.known_fields)).map
        (fun m => m.field_path) = (validate_cv_data v d).unknown_fields ∧
    ((validate_cv_data v d).unknown_fields.map (unknownFieldWarning v.known_fields)).map
        (fun m => m.level)
      = (validate_cv_data v d).unknown_fields.map (fun _ => ValidationLevel.warning) := by
  refine ⟨?_, ?_, ?_⟩
  · rw [errors_of_validate, unknowns_of_validate, validate_cv_data_eq]
  · simp [List.map_map, Function.comp_def, unknownFieldWarning]
  · simp [List.map_map, Function.comp_def, unknownFieldWarning, List.map_const']

/-- C9: the file-level entry point turns a missing or unparseable data
file into a recovered result — `is_valid = false`, exactly one
(error-level, root-located) message, no unknown fields — and on
successfully parsed data it defers to the programmatic entry point
`validate_cv_data`, which is total and always returns a result. -/
theorem c9_entry_points_never_raise (v : CVValidator) (o : LoadOutcome) :
    (∀ name, o = .fileNotFound name →
      (validate_yaml_file v o).is_valid = false ∧
      (validate_yaml_file v o).messages =
        [⟨.error, "", "YAML file not found: " ++ name, none⟩] ∧
      (validate_yaml_file v o).unknown_fields = []) ∧
    (∀ err, o = .parseError err →
      (validate_yaml_file v o).is_valid = false ∧
      (validate_yaml_file v o).messages =
        [⟨.error, "", "Error parsing YAML file: " ++ err, none⟩] ∧
      (validate_yaml_file v o).unknown_fields = []) ∧
    (∀ dd, o = .success dd → validate_yaml_file v o = validate_cv_data v dd) := by
  refine ⟨?_, ?_, ?_⟩ <;> rintro x rfl <;> simp [validate_yaml_file]

/-- C9 witness: the file-not-found outcome at a concrete file name. -/
theorem c9_entry_points_never_raise_witness :
    (validate_yaml_file (mkValidator (.obj [])) (.fileNotFound "cv.yml")).is_valid = false ∧
    (validate_yaml_file (mkValidator (.obj [])) (.fileNotFound "cv.yml")).messages =
      [⟨.error, "", "YAML file not found: " ++ "cv.yml", none⟩] ∧
    (validate_yaml_file (mkValidator (.obj [])) (.fileNotFound "cv.yml")).unknown_fields = [] :=
  (c9_entry_points_never_raise (mkValidator (.obj [])) (.fileNotFound "cv.yml")).1 "cv.yml" rfl

/-- C7: normalization rewrites every `date`/`datetime` scalar, at any
depth (dicts and lists are rebuilt), to the canonical `YYYY-MM-DD`
string, leaves every other scalar unchanged, and consequently a native
date sitting where the schema expects a string raises no type error. -/
theorem c7_normalization_canonical_dates (y m d : Nat) :
    normalize (.date y m d) = .str (dateStr y m d) ∧
    (∀ hh mi ss, normalize (.datetime y m d hh mi ss) = .str (dateStr y m d)) ∧
    normalize .null = .null ∧
    (∀ b, normalize (.bool b) = .bool b) ∧
    (∀ n, normalize (.int n) = .int n) ∧
    (∀ s, normalize (.str s) = .str s) ∧
    (∀ elems, normalize (.arr elems) = .arr (elems.map normalize)) ∧
    (∀ kvs, normalize (.obj kvs) = .obj (kvs.map (fun p => (p.1, normalize p.2)))) ∧
    iterErrors exSchemaBirth (normalize (.obj [("birthdate", .date y m d)])) [] = [] := by
  refine ⟨by simp [normalize], fun hh mi ss => by simp [normalize], by simp [normalize],
    fun b => by simp [normalize], fun n => by simp [normalize], fun s => by simp [normalize],
    fun elems => by simp [normalize, normalizeArr_eq],
    fun kvs => by simp [normalize, normalizeObj_eq], ?_⟩
  simp [exSchemaBirth, normalize, normalizeObj, iterErrors, iterPropsErrors, iterItemsErrors,
    typeErrors, enumErrors, requiredErrors, patternErrors, formatErrors, minLengthErrors,
    maxLengthErrors, minItemsErrors, maxItemsErrors, lookupJ, lookupVal, typeOk, Json.isDict]


/-- C2 (amended): the unknown-field list is exactly one rendered path per
unknown-key occurrence of the spec's detector contract (so a path string
appears once per occurrence — occurrences at different positions can
render to the same string when a data key contains a literal dot), the
result carries exactly one warning-level message per unknown-field entry
(its field_path the entry itself), and validity is read off the
structural errors alone, never off unknown fields. -/
theorem c2_unknown_field_occurrences (v : CVValidator) (d : Json) :
    (validate_cv_data v d).unknown_fields =
      (specUnknownOccs d v.schema "").map (fun o => qualify o.1 o.2) ∧
    (validate_cv_data v d).warnings =
      (validate_cv_data v d).unknown_fields.map (unknownFieldWarning v.known_fields) ∧
    (validate_cv_data v d).is_valid = (iterErrors v.schema (normalize d) []).isEmpty := by
  refine ⟨?_, ?_, ?_⟩
  · rw [unknowns_of_validate]
    exact (unknown_eq_spec (sizeOf v.schema + sizeOf d)).1 d v.schema "" (le_refl _)
  · rw [warnings_of_validate, unknowns_of_validate]
  · rw [validate_cv_data_eq]

/-- C2 counterexample: with the schema declaring a nested object `a` and
a document carrying both a literal dotted root key `a.b` and an unknown
`b` inside `a`, the path `a.b` appears twice in `unknown_fields` and two
warning-level messages carry it — refuting "exactly once". -/
theorem c2_counterexample :
    (validate_cv_data (mkValidator exSchemaDotted) exDocDotted).unknown_fields.count "a.b" = 2 ∧
    ((validate_cv_data (mkValidator exSchemaDotted) exDocDotted).warnings.filter
        (fun m => m.field_path == "a.b")).length = 2 ∧
    (validate_cv_data (mkValidator exSchemaDotted) exDocDotted).is_valid = true := by
  have hu : findUnknownFields exDocDotted exSchemaDotted "" = ["a.b", "a.b"] := by
    simp [findUnknownFields, findUnknownNested, findUnknownItems, lookupJ, keyMem, qualify,
      hasKey, exDocDotted, exSchemaDotted]
  refine ⟨?_, ?_, ?_⟩
  · rw [unknowns_of_validate]
    simp [mkValidator, hu]
  · rw [warnings_of_validate]
    simp [mkValidator, hu, unknownFieldWarning]
  · rw [validate_cv_data_eq]
    simp [mkValidator, exSchemaDotted, exDocDotted, iterErrors, iterPropsErrors, iterItemsErrors,
      typeErrors, enumErrors, requiredErrors, patternErrors, formatErrors, minLengthErrors,
      maxLengthErrors, minItemsErrors, maxItemsErrors, lookupJ, lookupVal, normalize,
      normalizeObj, typeOk]


/-- C3 (amended): when validation of a document yields exactly one
violation and it is a `required` violation, the result carries exactly
one error-level message, its `field_path` the dot-joined location of the
object missing the field, and its text `Required field '<name>' is
missing` with `<name>` extracted by splitting the library message on
single quotes — which recovers the true field name exactly when that
name contains no apostrophe. -/
theorem c3_required_error_message (v : CVValidator) (d : Json) (e : VError) (name : String)
    (h1 : iterErrors v.schema (normalize d) [] = [e])
    (h2 : e.validator = "required")
    (h3 : e.message = "'" ++ name ++ "' is a required property")
    (h4 : quoteChar ∉ name.data) :
    (validate_cv_data v d).errors =
      [⟨.error, joinDot (e.path.map pathPartStr),
        "Required field '" ++ name ++ "' is missing", none⟩] := by
  rw [errors_of_validate, h1]
  simp only [List.map_cons, List.map_nil]
  congr 1
  unfold formatJsonschemaError
  rw [h2, h3, splitChar_requiredMsg name h4]
  simp

/-- C3 witness: the schema requiring `email` on a document that only
carries `name` produces exactly that error. -/
theorem c3_required_error_message_witness :
    (validate_cv_data (mkValidator exSchemaEmail) exDocName).errors =
      [⟨.error, joinDot (eEmail.path.map pathPartStr),
        "Required field '" ++ "email" ++ "' is missing", none⟩] :=
  c3_required_error_message (mkValidator exSchemaEmail) exDocName eEmail "email"
    (by simp [mkValidator, exSchemaEmail, exDocName, eEmail, normalize, normalizeObj,
      iterErrors, iterPropsErrors, iterItemsErrors, typeErrors, enumErrors, requiredErrors,
      patternErrors, formatErrors, minLengthErrors, maxLengthErrors, minItemsErrors,
      maxItemsErrors, lookupJ, lookupVal, keyMem, typeOk, Json.isDict])
    rfl
    (by decide)
    (by decide)

/-- C3 counterexample: a required field named `a'b` (an apostrophe in the
name) makes the quote-splitting extraction give `a`, so the single error
message names the wrong field — refuting the claim's message text. -/
theorem c3_counterexample :
    (validate_cv_data (mkValidator exSchemaApos) (.obj [])).errors =
      [⟨.error, "", "Required field 'a' is missing", none⟩] ∧
    "Required field 'a' is missing" ≠ "Required field 'a'b' is missing" := by
  constructor
  · rw [errors_of_validate]
    simp [mkValidator, exSchemaApos, normalize, normalizeObj, iterErrors, iterPropsErrors,
      iterItemsErrors, typeErrors, enumErrors, requiredErrors, patternErrors, formatErrors,
      minLengthErrors, maxLengthErrors, minItemsErrors, maxItemsErrors, lookupJ, lookupVal,
      keyMem, typeOk, Json.isDict, formatJsonschemaError, joinDot, pathPartStr, splitChar,
      splitCharAux, quoteChar]
    rfl
  · decide


/-- C5 (amended): the formatted message is determined by the failing
constraint kind according to the spec's fixed table, where the
`required` row's `<name>` is the text the code recovers by quote-
splitting the library message — equal to the true missing-field name
exactly when that name contains no apostrophe; the `field_path` is the
dot-joined root-relative path (empty at the root) and the level is
always error. -/
theorem c5_message_table (e : VError) (name : String)
    (h : e.validator = "required" →
      e.message = "'" ++ name ++ "' is a required property" ∧ quoteChar ∉ name.data) :
    (formatJsonschemaError e).message = specTableMessage e name ∧
    (formatJsonschemaError e).field_path = joinDot (e.path.map pathPartStr) ∧
    (formatJsonschemaError e).level = .error := by
  refine ⟨?_, by simp [formatJsonschemaError], by simp [formatJsonschemaError]⟩
  by_cases hv : e.validator = "required"
  · obtain ⟨hm, hq⟩ := h hv
    unfold formatJsonschemaError specTableMessage
    rw [hv, hm, splitChar_requiredMsg name hq]
    try simp
  · unfold formatJsonschemaError specTableMessage
    simp only [beq_iff_eq, hv, if_false]

/-- C5 witness: a type violation at field `name` formats per the table. -/
theorem c5_message_table_witness :
    (formatJsonschemaError ⟨"type", .str "string", "3 is not of type 'string'", .int 3,
        [.key "name"]⟩).message
      = specTableMessage ⟨"type", .str "string", "3 is not of type 'string'", .int 3,
        [.key "name"]⟩ "z" ∧
    (formatJsonschemaError ⟨"type", .str "string", "3 is not of type 'string'", .int 3,
        [.key "name"]⟩).field_path
      = joinDot (([PathPart.key "name"]).map pathPartStr) ∧
    (formatJsonschemaError ⟨"type", .str "string", "3 is not of type 'string'", .int 3,
        [.key "name"]⟩).level = .error :=
  c5_message_table ⟨"type", .str "string", "3 is not of type 'string'", .int 3, [.key "name"]⟩ "z"
    (by intro hv; simp at hv)

/-- C5 counterexample: for a required field named `x'y` the produced
message text is not the table's text (`<name>` the field's name) — the
code emits `Required field 'x' is missing` instead. -/
theorem c5_counterexample :
    (validate_cv_data (mkValidator exSchemaAposTop) (.obj [])).messages =
      [⟨.error, "", "Required field 'x' is missing", none⟩] ∧
    specTableMessage ⟨"required", .arr [.str "x'y"], "'x'y' is a required property",
        .obj [], []⟩ "x'y"
      = "Required field 'x'y' is missing" ∧
    "Required field 'x' is missing" ≠ "Required field 'x'y' is missing" := by
  refine ⟨?_, ?_, by decide⟩
  · rw [validate_cv_data_eq]
    simp [mkValidator, exSchemaAposTop, normalize, normalizeObj, iterErrors, iterPropsErrors,
      iterItemsErrors, typeErrors, enumErrors, requiredErrors, patternErrors, formatErrors,
      minLengthErrors, maxLengthErrors, minItemsErrors, maxItemsErrors, lookupJ, lookupVal,
      keyMem, typeOk, Json.isDict, findUnknownFields, findUnknownNested, findUnknownItems,
      formatJsonschemaError, joinDot, pathPartStr, splitChar, splitCharAux, quoteChar]
    try rfl
  · unfold specTableMessage
    simp
    try rfl


/-- C6 (amended): the suggestion engine scores only the final dot-
segment of the unknown path against the known fields; it returns a
maximal-scoring member exactly when that member's score reaches the
threshold, returns nothing when every known field scores below the
threshold — a field a single character-edit away is returned only when
its ratio still clears the threshold and nothing scores higher. -/
theorem c6_suggestion_threshold (kf : List String) (uf : String) (t : Nat) :
    (∀ m, suggestFieldName kf uf t = some m →
       m ∈ kf ∧ t ≤ fuzzScore (lastSeg (splitChar '.' uf)) m ∧
       ∀ x ∈ kf, fuzzScore (lastSeg (splitChar '.' uf)) x
         ≤ fuzzScore (lastSeg (splitChar '.' uf)) m) ∧
    ((∀ x ∈ kf, fuzzScore (lastSeg (splitChar '.' uf)) x < t) →
       suggestFieldName kf uf t = none) ∧
    (∀ x ∈ kf, t ≤ fuzzScore (lastSeg (splitChar '.' uf)) x →
       ∃ m, suggestFieldName kf uf t = some m) ∧
    (∀ uf', lastSeg (splitChar '.' uf') = lastSeg (splitChar '.' uf) →
       suggestFieldName kf uf t = suggestFieldName kf uf' t) := by
  refine ⟨?_, ?_, ?_, ?_⟩
  · intro m hm
    simp only [suggestFieldName] at hm
    rcases hE : extractOneFW (lastSeg (splitChar '.' uf)) kf with _ | ⟨c, sc⟩ <;>
      rw [hE] at hm
    · simp at hm
    · simp only [] at hm
      by_cases ht : t ≤ sc
      · rw [if_pos ht] at hm
        cases hm
        obtain ⟨hmem, hsc, hmax⟩ := extractOneFW_some _ _ _ _ hE
        exact ⟨hmem, hsc ▸ ht, fun x hx => hsc ▸ hmax x hx⟩
      · rw [if_neg ht] at hm
        cases hm
  · intro hall
    simp only [suggestFieldName]
    rcases hE : extractOneFW (lastSeg (splitChar '.' uf)) kf with _ | ⟨c, sc⟩
    · rfl
    · obtain ⟨hmem, hsc, _⟩ := extractOneFW_some _ _ _ _ hE
      have hlt : sc < t := hsc ▸ hall c hmem
      show (if t ≤ sc then some c else none) = none
      rw [if_neg (by omega)]
  · intro x hx hxt
    simp only [suggestFieldName]
    rcases hE : extractOneFW (lastSeg (splitChar '.' uf)) kf with _ | ⟨c, sc⟩
    · cases kf with
      | nil => cases hx
      | cons c0 rest => rw [extractOneFW] at hE; cases hE
    · obtain ⟨hmem, hsc, hmax⟩ := extractOneFW_some _ _ _ _ hE
      have hts : t ≤ sc := le_trans hxt (hmax x hx)
      refine ⟨c, ?_⟩
      show (if t ≤ sc then some c else none) = some c
      rw [if_pos hts]
  · intro uf' hseg
    simp only [suggestFieldName]
    rw [hseg]

/-- C6 witness: with the single known field `x` and the unknown name
`zz` scoring below the threshold, no suggestion is returned. -/
theorem c6_suggestion_threshold_witness :
    suggestFieldName ["x"] "zz" 60 = none :=
  (c6_suggestion_threshold ["x"] "zz" 60).2.1 (by
    intro x hx
    rcases List.mem_singleton.1 hx with rfl
    simp [lastSeg, splitChar, splitCharAux, fuzzScore, lcsLen])

/-- C6 counterexample: `y` is a single character edit away from the only
known field `x`, yet its similarity ratio is 0, below the threshold, so
the engine returns no suggestion — refuting "a single-character edit
away is always returned". -/
theorem c6_counterexample :
    levenshtein "x".data "y".data = 1 ∧
    suggestFieldName (mkValidator exSchemaSingleX).known_fields "y" 60 = none := by
  constructor
  · simp [levenshtein]
  · simp [suggestFieldName, extractOneFW, extractOneAux, fuzzScore, lcsLen, lastSeg, splitChar,
      splitCharAux, mkValidator, extractKnownFields, extractFieldsRec, extractProps,
      extractOthers, lookupJ, qualify, Json.isDict, exSchemaSingleX]


/-- C8: for every object node the schema walk reaches (through property
sub-schemas, through a dict `items` — contributing no path segment — and
through any other dict-valued structural keyword), each of its declared
property names is in the validator's Known-Field Set both as a bare name
and as its dotted path from the root; the set is the pure function
`extractKnownFields` of the schema, computed once at construction. -/
theorem c8_known_field_set (schema : Json) (kvs props : List (String × Json))
    (q name : String) (fd : Json)
    (hr : SchemaReaches schema "" (.obj kvs) q)
    (hp : lookupVal kvs "properties" = some (.obj props))
    (hm : (name, fd) ∈ props) :
    name ∈ (mkValidator schema).known_fields ∧
    qualify q name ∈ (mkValidator schema).known_fields ∧
    (mkValidator schema).known_fields = extractKnownFields schema := by
  have h1 := extractProps_mem q hm
  have hs := reaches_subset hr
  have m1 : name ∈ extractFieldsRec schema "" :=
    hs _ (extractFieldsRec_props_sub hp _ h1.1)
  have m2 : qualify q name ∈ extractFieldsRec schema "" :=
    hs _ (extractFieldsRec_props_sub hp _ h1.2)
  refine ⟨?_, ?_, rfl⟩ <;> simp [mkValidator, extractKnownFields, List.mem_dedup] <;> assumption

/-- C8 witness: in the schema with an array property `work` whose items
declare `role`, both `role` and `work.role` are known fields. -/
theorem c8_known_field_set_witness :
    "role" ∈ (mkValidator exSchemaWork).known_fields ∧
    "work.role" ∈ (mkValidator exSchemaWork).known_fields ∧
    (mkValidator exSchemaWork).known_fields = extractKnownFields exSchemaWork := by
  have hstep1 := @SchemaReaches.viaProp exSchemaWork ""
    [("properties", .obj [("work",
      .obj [("type", .str "array"),
        ("items", .obj [("properties", .obj [("role", .obj [])])])])])]
    ""
    [("work", .obj [("type", .str "array"),
        ("items", .obj [("properties", .obj [("role", .obj [])])])])]
    "work"
    (.obj [("type", .str "array"),
        ("items", .obj [("properties", .obj [("role", .obj [])])])])
    (SchemaReaches.refl exSchemaWork "") (by simp [lookupVal, lookupJ]) (by simp) rfl
  rw [show qualify "" "work" = "work" from by simp [qualify]] at hstep1
  have hstep2 := @SchemaReaches.viaItems exSchemaWork ""
    [("type", .str "array"), ("items", .obj [("properties", .obj [("role", .obj [])])])]
    "work"
    [("properties", .obj [("role", .obj [])])]
    hstep1 (by simp [lookupVal, lookupJ])
  have h := c8_known_field_set exSchemaWork
    [("properties", .obj [("role", .obj [])])] [("role", .obj [])]
    "work" "role" (.obj []) hstep2 (by simp [lookupVal, lookupJ]) (by simp)
  refine ⟨h.1, ?_, h.2.2⟩
  have h2 := h.2.1
  rwa [show qualify "work" "role" = "work.role" from by simp [qualify]] at h2

end CVGen
